import Mathlib

/-
Verification of the helix-dashboard backend core against its specification.

The Rust sources are shallowly embedded:
* Rust `String`/`&str` values become `Str := List Char` (all relevant text is
  ASCII; Unicode-only behaviours of `char::is_whitespace`, `to_lowercase`,
  `is_uppercase` are modelled by their ASCII restrictions, which coincide on
  every input the claims touch).
* `serde_json::Value` becomes the inductive `Json`; JSON numbers are modelled
  as exact decimals `Dec` (f64 rounding is not modelled: no claim depends on
  the rounded value of a float, only on parse success, finiteness and
  structure).
* Rust `f64` values are modelled by `RF64`: a finite rational, an infinity, or
  NaN; `f64::from_str` overflow to infinity is modelled by the exact threshold
  `2^1024`.
* `HashMap`/`serde_json::Map` become association lists; `HashMap` iteration
  order is modelled by list order (the claims proved about maps are
  order-independent), and `serde_json::Map` (an insertion-ordered `IndexMap`,
  as the canonicalization contract requires) keeps insertion order.
* `while` loops driven by a cursor index become fuel-based recursions
  (structural on the fuel, so concrete runs reduce by `rfl`); the callers pass
  `lines.length + 1` fuel, and fuel sufficiency is proved where a claim is
  about termination.
* Rust's stable `sort_by` is modelled by `List.insertionSort`, which is stable
  for the same tie-breaking convention (equal keys keep their input order).
-/

set_option maxRecDepth 16384

namespace HxD

/-- Characters of a Rust string. -/
abbrev Str := List Char

/-- Rust `char::is_whitespace`, restricted to ASCII whitespace. -/
def isWS (c : Char) : Bool := c = ' ' || c = '\t' || c = '\n' || c = '\r'

/-- Rust `str::trim_start`. -/
def trimL (s : Str) : Str := s.dropWhile isWS

/-- Rust `str::trim_end`. -/
def trimR (s : Str) : Str := (s.reverse.dropWhile isWS).reverse

/-- Rust `str::trim`. -/
def trimS (s : Str) : Str := trimR (trimL s)

/-- Rust `str::starts_with` for a string pattern. -/
def isPref (pat s : Str) : Bool := List.isPrefixOf pat s

/-- Rust `str::ends_with` for a string pattern. -/
def isSuff (pat s : Str) : Bool := List.isSuffixOf pat s

/-- Rust `str::strip_prefix`. -/
def stripPref (pat s : Str) : Option Str :=
  if isPref pat s then some (s.drop pat.length) else none

/-- One round of suffix stripping: `s` without a final occurrence of `pat`. -/
def dropSuffOnce (pat s : Str) : Str := s.take (s.length - pat.length)

/-- Fuel-driven core of `str::trim_end_matches` (repeatedly strip `pat`). -/
def trimEndMatchesF : Nat → Str → Str → Str
  | 0, _, s => s
  | fuel + 1, pat, s =>
      if !pat.isEmpty && isSuff pat s then trimEndMatchesF fuel pat (dropSuffOnce pat s)
      else s

/-- Rust `str::trim_end_matches` (for a non-empty pattern). -/
def trimEndMatches (pat s : Str) : Str := trimEndMatchesF (s.length + 1) pat s

/-- Split at every occurrence of the character `c` (Rust `str::split(c)`). -/
def splitChar (c : Char) : Str → List Str
  | [] => [[]]
  | x :: xs =>
      match splitChar c xs with
      | [] => [[]]
      | h :: t => if x = c then [] :: h :: t else (x :: h) :: t

/-- Rust `str::lines`: split at newlines, drop a final empty piece, and strip a
trailing carriage return from each line. -/
def linesR (s : Str) : List Str :=
  let ps := splitChar '\n' s
  let ps := if ps.getLast? = some [] then ps.dropLast else ps
  ps.map (fun l => if isSuff ['\r'] l then dropSuffOnce ['\r'] l else l)

/-- Rust `str::split_once(pat)`: split at the leftmost occurrence of `pat`. -/
def splitOnceSub (pat : Str) : Str → Option (Str × Str)
  | [] => if pat.isEmpty then some ([], []) else none
  | x :: xs =>
      if isPref pat (x :: xs) then some ([], (x :: xs).drop pat.length)
      else (splitOnceSub pat xs).map (fun p => (x :: p.1, p.2))

/-- Fuel-driven core of `str::split(pat)` for a string pattern. -/
def splitSubF : Nat → Str → Str → List Str
  | 0, _, s => [s]
  | fuel + 1, pat, s =>
      match splitOnceSub pat s with
      | some (l, r) => l :: splitSubF fuel pat r
      | none => [s]

/-- Rust `str::split(pat)` for a non-empty string pattern, collected to a list:
leftmost-first, non-overlapping. -/
def splitSub (pat s : Str) : List Str := splitSubF (s.length + 1) pat s

/-- Fuel-driven core of `str::replace(pat, "")`: delete every occurrence. -/
def removeAllF : Nat → Str → Str → Str
  | 0, _, s => s
  | fuel + 1, pat, s =>
      match splitOnceSub pat s with
      | some (l, r) => l ++ removeAllF fuel pat r
      | none => s

/-- Rust `str::replace(pat, "")` for a non-empty pattern. -/
def removeAll (pat s : Str) : Str := removeAllF (s.length + 1) pat s

/-- Rust `[String]::join(sep)`. -/
def joinSep (sep : Str) : List Str → Str
  | [] => []
  | [x] => x
  | x :: xs => x ++ sep ++ joinSep sep xs

/-- Rust `str::to_lowercase`, ASCII fragment (`Char.toLower` lowers `A`–`Z`). -/
def toLowerS (s : Str) : Str := s.map Char.toLower

/-- Numeric value of a string of ASCII digits (most significant first). -/
def digitsToNat (s : Str) : Nat := s.foldl (fun a c => a * 10 + (c.toNat - 48)) 0

/-- All-digits test used by the integer parsers (requires at least one digit). -/
def allDigits (s : Str) : Bool := !s.isEmpty && s.all Char.isDigit

/-- Rust unsigned `from_str` both accepts an optional leading `+`. -/
def dropLeadingPlus : Str → Str
  | '+' :: r => r
  | r => r

/-- Rust `u128::from_str`-style digit parse with no width bound. -/
def parseUnsignedNat (s : Str) : Option Nat :=
  let t := dropLeadingPlus s
  if allDigits t then some (digitsToNat t) else none

/-- Rust `u32::from_str` (overflow is an error). -/
def parseU32 (s : Str) : Option Nat :=
  (parseUnsignedNat s).bind (fun n => if n < 2 ^ 32 then some n else none)

/-- Rust `u64::from_str` (overflow is an error). -/
def parseU64 (s : Str) : Option Nat :=
  (parseUnsignedNat s).bind (fun n => if n < 2 ^ 64 then some n else none)

/-- Rust `u128::from_str` (overflow is an error). -/
def parseU128 (s : Str) : Option Nat :=
  (parseUnsignedNat s).bind (fun n => if n < 2 ^ 128 then some n else none)

/-- Rust signed `from_str`: optional sign then digits, unbounded value. -/
def parseSignedInt (s : Str) : Option Int :=
  match s with
  | '-' :: r => if allDigits r then some (-(digitsToNat r : Int)) else none
  | '+' :: r => if allDigits r then some ((digitsToNat r : Int)) else none
  | r => if allDigits r then some ((digitsToNat r : Int)) else none

/-- Rust `i32::from_str` (overflow is an error). -/
def parseI32 (s : Str) : Option Int :=
  (parseSignedInt s).bind (fun n =>
    if -(2 ^ 31) ≤ n ∧ n < 2 ^ 31 then some n else none)

/-- Rust `i64::from_str` (overflow is an error). -/
def parseI64 (s : Str) : Option Int :=
  (parseSignedInt s).bind (fun n =>
    if -(2 ^ 63) ≤ n ∧ n < 2 ^ 63 then some n else none)

/-- An exact decimal number `m × 10^e`. Used as the model of both parsed
`f64` mantissas and JSON numbers; kept in the canonical form produced by
`Dec.canon` (no trailing zero factor in `m`, and `0 × 10^0` for zero), so
that semantically equal parses are structurally equal. -/
structure Dec where
  m : Int
  e : Int
  deriving DecidableEq

/-- Fuel-driven canonicalization: strip factors of ten out of the mantissa. -/
def decCanonF : Nat → Int → Int → Dec
  | 0, m, e => { m := m, e := e }
  | fuel + 1, m, e =>
      if m = 0 then { m := 0, e := 0 }
      else if m % 10 = 0 then decCanonF fuel (m / 10) (e + 1)
      else { m := m, e := e }

/-- Canonical form of `m × 10^e`. -/
def Dec.canon (m e : Int) : Dec := decCanonF (m.natAbs + 1) m e

/-- The integer `n` as a canonical decimal. -/
def Dec.ofInt (n : Int) : Dec := Dec.canon n 0

/-- The numeral `2^1024`, written out so that it evaluates as a literal. -/
def pow2_1024 : Nat := 179769313486231590772930519078902473361797697894230657273430081157732675805500963132708477322407536021120113879871393357658789768814416622492847430639474124377767893424865485276302219601246094119453082952085005768838150682342462881473913110540827237163350510684586298239947245938479716304835356329624224137216


/-- Whether `|m × 10^e| ≥ 2^1024`, the smallest magnitude at which
`f64::from_str` overflows to infinity (and at which serde_json rejects a
number as out of the f64 range). -/
def Dec.absGEOverflow (d : Dec) : Bool :=
  if 0 ≤ d.e then pow2_1024 ≤ d.m.natAbs * 10 ^ d.e.toNat
  else pow2_1024 * 10 ^ (-d.e).toNat ≤ d.m.natAbs

/-- A Rust `f64` as the claims observe it: a finite exact decimal, an
infinity, or NaN (the rounding of a finite value is not modelled). -/
inductive RF64 where
  | finite (d : Dec) : RF64
  | inf : RF64
  | neginf : RF64
  | nan : RF64
  deriving DecidableEq

/-- Exponent part of Rust's float grammar: `(e|E)` already consumed; an
optional sign then at least one digit. -/
def parseExpPart (s : Str) : Option Int := parseSignedInt s

/-- Decimal value of integer digits `ip`, fraction digits `fp` and a
ten's exponent `ex`: the digit concatenation scaled by `10^(ex - |fp|)`. -/
def decOfParts (ip fp : Str) (ex : Int) : Dec :=
  Dec.canon ((digitsToNat (ip ++ fp) : Int)) (ex - (fp.length : Int))

/-- Magnitude part of Rust's `f64::from_str` decimal grammar:
`Digit+ Exp?`, `Digit+ '.' Digit* Exp?` or `Digit* '.' Digit+ Exp?`. -/
def parseDecMag (t : Str) : Option Dec :=
  let ipRest := t.span Char.isDigit
  match ipRest.2 with
  | [] => if !ipRest.1.isEmpty then some (decOfParts ipRest.1 [] 0) else none
  | '.' :: rest2 =>
      let fpRest := rest2.span Char.isDigit
      if ipRest.1.isEmpty && fpRest.1.isEmpty then none
      else
        match fpRest.2 with
        | [] => some (decOfParts ipRest.1 fpRest.1 0)
        | e :: rest4 =>
            if e = 'e' || e = 'E' then
              (parseExpPart rest4).map (fun ex => decOfParts ipRest.1 fpRest.1 ex)
            else none
  | e :: rest4 =>
      if (e = 'e' || e = 'E') && !ipRest.1.isEmpty then
        (parseExpPart rest4).map (fun ex => decOfParts ipRest.1 [] ex)
      else none

/-- Negation of a decimal (canonical form is preserved). -/
def Dec.neg (d : Dec) : Dec := { m := -d.m, e := d.e }

/-- Rust `f64::from_str`: an optional sign, then a case-insensitive special
(`inf`, `infinity`, `nan`) or a decimal magnitude; a finite magnitude at or
beyond the f64 range overflows to the signed infinity. -/
def rustParseF64 (s : Str) : Option RF64 :=
  let sgnT : Bool × Str :=
    match s with
    | '-' :: r => (true, r)
    | '+' :: r => (false, r)
    | r => (false, r)
  let neg := sgnT.1
  let low := toLowerS sgnT.2
  if low = ['i', 'n', 'f'] || low = ['i', 'n', 'f', 'i', 'n', 'i', 't', 'y'] then
    some (if neg then RF64.neginf else RF64.inf)
  else if low = ['n', 'a', 'n'] then some RF64.nan
  else
    (parseDecMag sgnT.2).map (fun d =>
      if d.absGEOverflow then (if neg then RF64.neginf else RF64.inf)
      else RF64.finite (if neg then d.neg else d))

/-- `serde_json::Number::from_f64`: defined exactly on finite floats. -/
def numberFromF64 : RF64 → Option Dec
  | RF64.finite d => some d
  | _ => none

/-- JSON whitespace accepted by serde_json between tokens. -/
def isJsonWS (c : Char) : Bool := c = ' ' || c = '\t' || c = '\n' || c = '\r'

/-- Drop leading JSON whitespace. -/
def skipWS (s : Str) : Str := s.dropWhile isJsonWS

/-- Integer part of a JSON number: `0`, or a nonzero digit then digits. -/
def jsonIntPart : Str → Option (Str × Str)
  | '0' :: r => some (['0'], r)
  | c :: r =>
      if c.isDigit then
        let dRest := r.span Char.isDigit
        some (c :: dRest.1, dRest.2)
      else none
  | [] => none

/-- One JSON number token (`-? int frac? exp?`) at the head of the input;
yields its exact value and the remaining input. -/
def jsonNumTok (s : Str) : Option (Dec × Str) :=
  let sgnT : Bool × Str :=
    match s with
    | '-' :: r => (true, r)
    | r => (false, r)
  (jsonIntPart sgnT.2).bind (fun ipRest =>
    let fracRest : Str × Str :=
      match ipRest.2 with
      | '.' :: r2 => let d := r2.span Char.isDigit; if d.1.isEmpty then ([], ipRest.2) else (d.1, d.2)
      | r2 => ([], r2)
    let expRest : Option (Int × Str) :=
      match fracRest.2 with
      | e :: r3 =>
          if e = 'e' || e = 'E' then
            match r3 with
            | '+' :: r4 => let d := r4.span Char.isDigit
                           if d.1.isEmpty then none else some ((digitsToNat d.1 : Int), d.2)
            | '-' :: r4 => let d := r4.span Char.isDigit
                           if d.1.isEmpty then none else some (-(digitsToNat d.1 : Int), d.2)
            | r4 => let d := r4.span Char.isDigit
                    if d.1.isEmpty then none else some ((digitsToNat d.1 : Int), d.2)
          else some (0, fracRest.2)
      | r3 => some (0, r3)
    -- a `.` not followed by a digit, or a malformed exponent, leaves the
    -- offending characters in the remainder; both cases surface as a parse
    -- failure in `jsonArrElems` below, as in serde_json.
    expRest.map (fun exR =>
      (let mag := decOfParts ipRest.1 fracRest.1 exR.1
       (if sgnT.1 then mag.neg else mag), exR.2)))

/-- Comma-separated JSON numbers up to the closing `]` of the array, requiring
end-of-input (after whitespace) behind it; serde_json rejects numbers outside
the finite f64 range (`NumberOutOfRange`), modelled by `Dec.absGEOverflow`. -/
def jsonArrElems : Nat → Str → Option (List Dec)
  | 0, _ => none
  | fuel + 1, t =>
      (jsonNumTok t).bind (fun dRest =>
        if dRest.1.absGEOverflow then none
        else
          match skipWS dRest.2 with
          | ',' :: r2 => (jsonArrElems fuel (skipWS r2)).map (dRest.1 :: ·)
          | ']' :: r2 => if (skipWS r2).isEmpty then some [dRest.1] else none
          | _ => none)

/-- `serde_json::from_str::<Vec<f64>>`: a whole-input JSON array of numbers. -/
def jsonVecF64Parse (s : Str) : Option (List Dec) :=
  match skipWS s with
  | '[' :: r =>
      match skipWS r with
      | ']' :: r2 => if (skipWS r2).isEmpty then some [] else none
      | t => jsonArrElems (s.length + 1) t
  | _ => none

/-- `serde_json::Value`; object member lists keep insertion order. -/
inductive Json where
  | null : Json
  | bool (b : Bool) : Json
  | num (d : Dec) : Json
  | str (s : Str) : Json
  | arr (xs : List Json) : Json
  | obj (kvs : List (Str × Json)) : Json

/-- Whether a value is `Value::Null`. -/
def Json.isNull : Json → Bool
  | Json.null => true
  | _ => false

/-- The literal key `"id"`. -/
def idKeyS : Str := ['i', 'd']

/-- Sort key used for numeric JSON keys: `key.parse::<u64>().unwrap_or(0)`. -/
def sortKeyU64 (k : Str) : Nat := (parseU64 k).getD 0

/-- Comparator under which the numeric-key group is sorted. -/
def keyLE (p q : Str × Json) : Prop := sortKeyU64 p.1 ≤ sortKeyU64 q.1

instance : DecidableRel keyLE := fun p q => Nat.decLe (sortKeyU64 p.1) (sortKeyU64 q.1)

instance : IsTotal (Str × Json) keyLE := ⟨fun p q => Nat.le_total (sortKeyU64 p.1) (sortKeyU64 q.1)⟩

instance : IsTrans (Str × Json) keyLE := ⟨fun _ _ _ => Nat.le_trans⟩

/-- Key test of the numeric group: `key.chars().all(|c| c.is_ascii_digit())`
(the `src/web/utils.rs` canonicalizer; the `src/utils.rs` duplicate uses
`char::is_numeric`, which agrees on ASCII input). -/
def digitKeyB (p : Str × Json) : Bool := p.1.all Char.isDigit

/-- Key test of the `"id"` group. -/
def idKeyB (p : Str × Json) : Bool := p.1 = idKeyS

mutual
/-- `sort_json_object` of `src/backend/src/web/utils.rs`: recursively
canonicalize values, then reorder object members into the numeric group
(stably sorted by `keyLE`), the `"id"` group, and the remaining members. -/
def sort_json_object : Json → Json
  | Json.obj kvs =>
      let mapped := sortObjVals kvs
      let numericSplit := mapped.partition digitKeyB
      let idSplit := numericSplit.2.partition idKeyB
      Json.obj (List.insertionSort keyLE numericSplit.1 ++ idSplit.1 ++ idSplit.2)
  | Json.arr xs => Json.arr (sortArrVals xs)
  | other => other
/-- Element-wise recursion of `sort_json_object` over an array. -/
def sortArrVals : List Json → List Json
  | [] => []
  | x :: xs => sort_json_object x :: sortArrVals xs
/-- Value-wise recursion of `sort_json_object` over object members. -/
def sortObjVals : List (Str × Json) → List (Str × Json)
  | [] => []
  | (k, v) :: tl => (k, sort_json_object v) :: sortObjVals tl
end

/-- `HelixType` of `src/backend/src/core/helix_types.rs`. -/
inductive HelixType where
  | string : HelixType
  | i32 : HelixType
  | i64 : HelixType
  | u32 : HelixType
  | u64 : HelixType
  | u128 : HelixType
  | f64 : HelixType
  | id : HelixType
  | array (inner : HelixType) : HelixType
  deriving DecidableEq

/-- `HelixTypeError`: the two-member error taxonomy. -/
inductive HelixTypeError where
  | parseType (msg : Str) : HelixTypeError
  | conversion (value : Str) (expected : HelixType) (err : Str) : HelixTypeError
  deriving DecidableEq

/-- `Display for HelixType`: canonical text, arrays in bracket form. -/
def helixDisplay : HelixType → Str
  | HelixType.string => ['S', 't', 'r', 'i', 'n', 'g']
  | HelixType.i32 => ['I', '3', '2']
  | HelixType.i64 => ['I', '6', '4']
  | HelixType.u32 => ['U', '3', '2']
  | HelixType.u64 => ['U', '6', '4']
  | HelixType.u128 => ['U', '1', '2', '8']
  | HelixType.f64 => ['F', '6', '4']
  | HelixType.id => ['I', 'D']
  | HelixType.array inner => '[' :: helixDisplay inner ++ [']']

/-- Fuel-driven core of `FromStr for HelixType`: literal scalar names, then
`[T]`, then the legacy `Array(T)` alias, recursing on the inner text. -/
def helixFromStrF : Nat → Str → Except HelixTypeError HelixType
  | 0, s => Except.error (HelixTypeError.parseType s)
  | fuel + 1, s =>
      if s = ['S', 't', 'r', 'i', 'n', 'g'] then Except.ok HelixType.string
      else if s = ['I', '3', '2'] then Except.ok HelixType.i32
      else if s = ['I', '6', '4'] then Except.ok HelixType.i64
      else if s = ['U', '3', '2'] then Except.ok HelixType.u32
      else if s = ['U', '6', '4'] then Except.ok HelixType.u64
      else if s = ['U', '1', '2', '8'] then Except.ok HelixType.u128
      else if s = ['F', '6', '4'] then Except.ok HelixType.f64
      else if s = ['I', 'D'] then Except.ok HelixType.id
      else if isPref ['['] s && isSuff [']'] s then
        (helixFromStrF fuel ((s.drop 1).dropLast)).map HelixType.array
      else if isPref (['A', 'r', 'r', 'a', 'y', '(']) s && isSuff [')'] s then
        (helixFromStrF fuel ((s.drop 6).dropLast)).map HelixType.array
      else
        Except.error (HelixTypeError.parseType (('U' :: ('n' :: "known type: ".data)) ++ s))

/-- `FromStr for HelixType` (`"...".parse::<HelixType>()`). -/
def helixFromStr (s : Str) : Except HelixTypeError HelixType :=
  helixFromStrF (s.length + 1) s

/-- Message used by the model for the array-parse failure (the Rust code
formats the underlying serde/float error into the message; the claims never
inspect the text). -/
def errFailedParseArray : Str := ('F' :: ('a' :: "iled to parse array".data))

/-- `parse_f64_array` of `helix_types.rs`: try a JSON `Vec<f64>` parse, fall
back to a comma-split where every piece must parse as `f64`, then keep only
the finite elements (`filter_map(Number::from_f64)`). -/
def parse_f64_array (v : Str) : Except Str Json :=
  match jsonVecF64Parse v with
  | some qs =>
      Except.ok (Json.arr (((qs.map RF64.finite).filterMap numberFromF64).map Json.num))
  | none =>
      match (splitChar ',' v).mapM (fun p => rustParseF64 (trimS p)) with
      | some rs => Except.ok (Json.arr ((rs.filterMap numberFromF64).map Json.num))
      | none => Except.error errFailedParseArray

/-- `ToJson for str` (`value.to_json(&helix_type)`) of `helix_types.rs`. -/
def strToJson (v : Str) (t : HelixType) : Except HelixTypeError Json :=
  match t with
  | HelixType.string => Except.ok (Json.str v)
  | HelixType.id => Except.ok (Json.str v)
  | HelixType.i32 =>
      match parseI32 v with
      | some n => Except.ok (Json.num (Dec.ofInt n))
      | none => Except.error (HelixTypeError.conversion v t ("invalid digit").data)
  | HelixType.i64 =>
      match parseI64 v with
      | some n => Except.ok (Json.num (Dec.ofInt n))
      | none => Except.error (HelixTypeError.conversion v t ("invalid digit").data)
  | HelixType.u32 =>
      match parseU32 v with
      | some n => Except.ok (Json.num (Dec.ofInt n))
      | none => Except.error (HelixTypeError.conversion v t ("invalid digit").data)
  | HelixType.u64 =>
      match parseU64 v with
      | some n => Except.ok (Json.num (Dec.ofInt n))
      | none => Except.error (HelixTypeError.conversion v t ("invalid digit").data)
  | HelixType.u128 =>
      -- the u128 value is narrowed with `as f64` before `Number::from_f64`;
      -- the rounding is not modelled, the finite result always converts
      match parseU128 v with
      | some n => Except.ok (Json.num (Dec.ofInt n))
      | none => Except.error (HelixTypeError.conversion v t ("invalid digit").data)
  | HelixType.f64 =>
      match rustParseF64 v with
      | none => Except.error (HelixTypeError.conversion v t ("invalid float literal").data)
      | some (RF64.finite d) => Except.ok (Json.num d)
      | some _ =>
          Except.error (HelixTypeError.conversion v t ("Invalid float value for JSON").data)
  | HelixType.array inner =>
      match inner with
      | HelixType.f64 =>
          match parse_f64_array v with
          | Except.ok j => Except.ok j
          | Except.error e => Except.error (HelixTypeError.conversion v t e)
      | _ => Except.error (HelixTypeError.conversion v t ("Array type not yet supported").data)

/-- Composition checked by the scalar round-trip property: parse a type text,
then render it back with `Display`. -/
def helixRoundTrip (s : Str) : Option Str :=
  match helixFromStr s with
  | Except.ok t => some (helixDisplay t)
  | Except.error _ => none

/-- `convert_string_to_type` of `src/backend/src/utils.rs`: the handler-side
coercion keyed on the raw type text. Unsigned failures produce the number 0,
a non-finite `F64` produces 0 (via `parse_number`'s `or_else`), other
failures fall back to the raw string. -/
def convert_string_to_type (v : Str) (paramType : Str) : Json :=
  if paramType = ('S' :: ('t' :: "ring".data)) || paramType = ['I', 'D'] then Json.str v
  else if paramType = ['I', '3', '2'] then
    match parseI32 v with
    | some n => Json.num (Dec.ofInt n)
    | none => Json.str v
  else if paramType = ['I', '6', '4'] then
    match parseI64 v with
    | some n => Json.num (Dec.ofInt n)
    | none => Json.str v
  else if paramType = ['U', '3', '2'] then
    match parseU32 v with
    | some n => Json.num (Dec.ofInt n)
    | none => Json.num (Dec.ofInt 0)
  else if paramType = ['U', '6', '4'] then
    match parseU64 v with
    | some n => Json.num (Dec.ofInt n)
    | none => Json.num (Dec.ofInt 0)
  else if paramType = ['U', '1', '2', '8'] then
    -- `parse_number` of the `as f64` rendering of a u128 is always finite
    match parseU128 v with
    | some n => Json.num (Dec.ofInt n)
    | none => Json.num (Dec.ofInt 0)
  else if paramType = ['F', '6', '4'] then
    match rustParseF64 v with
    | some (RF64.finite d) => Json.num d
    | some _ => Json.num (Dec.ofInt 0)
    | none => Json.str v
  else if paramType = ('A' :: ('r' :: "ray(F64)".data)) then
    match parse_f64_array v with
    | Except.ok j => j
    | Except.error _ => Json.str v
  else Json.str v

/-- Lookup in an association list (first match), as map `get`. -/
def lookupA {α : Type} : List (Str × α) → Str → Option α
  | [], _ => none
  | (k', v') :: tl, k => if k' = k then some v' else lookupA tl k

/-- Map `contains_key`. -/
def hasKeyA {α : Type} (l : List (Str × α)) (k : Str) : Bool := (lookupA l k).isSome

/-- Map `insert`: replace the value in place if the key is present (as
`IndexMap` does), otherwise append. -/
def insertA {α : Type} : List (Str × α) → Str → α → List (Str × α)
  | [], k, v => [(k, v)]
  | (k', v') :: tl, k, v =>
      if k' = k then (k', v) :: tl else (k', v') :: insertA tl k v

/-- Body seeding shared by `QueryParams::merge_parameters` and
`execute_query_handler`: an object body seeds the map verbatim, a non-null
non-object body is wrapped under `"body"`, anything else seeds empty. -/
def seedParams (body : Option Json) : List (Str × Json) :=
  match body with
  | some (Json.obj m) => m
  | some other => if !other.isNull then [(('b' :: "ody".data), other)] else []
  | none => []

/-- Per-key coercion of `merge_parameters`: catalogue lookup, then a
`HelixType` parse, then `to_json`, falling back to the raw string when any
step fails. -/
def coerceQueryValue (paramTypes : List (Str × Str)) (k v : Str) : Json :=
  match lookupA paramTypes k with
  | some ty =>
      match helixFromStr ty with
      | Except.ok ht =>
          match strToJson v ht with
          | Except.ok j => j
          | Except.error _ => Json.str v
      | Except.error _ => Json.str v
  | none => Json.str v

/-- Member list produced by `QueryParams::merge_parameters`
(`src/backend/src/web/params.rs`): seed from the body, collect the
query-string keys absent from the seed with their coerced values, insert
them all. Query-string iteration order is modelled by list order. -/
def mergeParamsList (queryParams : List (Str × Str)) (body : Option Json)
    (paramTypes : List (Str × Str)) : List (Str × Json) :=
  let params := seedParams body
  let newParams :=
    (queryParams.filter (fun p => !hasKeyA params p.1)).map
      (fun p => (p.1, coerceQueryValue paramTypes p.1 p.2))
  newParams.foldl (fun acc p => insertA acc p.1 p.2) params

/-- `QueryParams::merge_parameters`. -/
def merge_parameters (queryParams : List (Str × Str)) (body : Option Json)
    (paramTypes : List (Str × Str)) : Json :=
  Json.obj (mergeParamsList queryParams body paramTypes)

/-- Member list of the inline merge in `execute_query_handler`
(`src/backend/src/web/handlers.rs`, lines 54–77): same seeding, but each
query-string key is checked against the growing map and coerced through
`convert_string_to_type` (raw-string fallback only on catalogue miss). -/
def handlerMergeList (queryParams : List (Str × Str)) (body : Option Json)
    (paramTypes : List (Str × Str)) : List (Str × Json) :=
  queryParams.foldl
    (fun acc p =>
      if hasKeyA acc p.1 then acc
      else
        insertA acc p.1
          (match lookupA paramTypes p.1 with
           | some ty => convert_string_to_type p.2 ty
           | none => Json.str p.2))
    (seedParams body)

/-- The parameter object built by `execute_query_handler`. -/
def executeQueryMergeParams (queryParams : List (Str × Str)) (body : Option Json)
    (paramTypes : List (Str × Str)) : Json :=
  Json.obj (handlerMergeList queryParams body paramTypes)

/-- Prefix `N::`. -/
def tagN : Str := ['N', ':', ':']

/-- Prefix `V::`. -/
def tagV : Str := ['V', ':', ':']

/-- Prefix `E::`. -/
def tagE : Str := ['E', ':', ':']

/-- Line-comment marker `//`. -/
def tagComment : Str := ['/', '/']

/-- The ` \x7b` suffix stripped from a block-opening line. -/
def tagOpenBrace : Str := [' ', '\x7b']

/-- A lone closing brace line. -/
def tagCloseBrace : Str := ['\x7d']

/-- Prefix `From:` of an edge body line. -/
def tagFrom : Str := ['F', 'r', 'o', 'm', ':']

/-- Prefix `To:` of an edge body line. -/
def tagTo : Str := ['T', 'o', ':']

/-- The exact line `Properties: \x7b` opening an edge's property sub-block. -/
def tagProps : Str := ('P' :: ("roperties: \x7b").data)

/-- `parse_property_line`: strip a trailing comma, split at the first `:`,
trim both sides, and normalize a bracketed type `[T]` to `Array<T>` text. -/
def parse_property_line (line : Str) : Option (Str × Str) :=
  let clean := trimEndMatches [','] (trimS line)
  (splitOnceSub [':'] clean).map (fun nt =>
    let propName := trimS nt.1
    let propType := trimS nt.2
    let normalized :=
      if isPref ['['] propType && isSuff [']'] propType then
        (('A' :: ("rray<").data) ++ (propType.drop 1).dropLast) ++ ['>']
      else propType
    (propName, normalized))

/-- `NodeType` (also the shape of `VectorType` up to the kind field). -/
structure NodeT where
  name : Str
  node_type : Str
  properties : List (Str × Str)
  deriving DecidableEq

/-- `VectorType`. -/
structure VectorT where
  name : Str
  vector_type : Str
  properties : List (Str × Str)
  deriving DecidableEq

/-- `EdgeType`. -/
structure EdgeT where
  name : Str
  from_node : Str
  to_node : Str
  properties : List (Str × Str)
  deriving DecidableEq

/-- `SchemaInfo`. -/
structure SchemaInfoT where
  nodes : List NodeT
  edges : List EdgeT
  vectors : List VectorT
  deriving DecidableEq

/-- Property-accumulation loop shared verbatim by `NodeType::parse_from_lines`
and `VectorType::parse_from_lines`: a `\x7d` line closes the block, blank and
`//` lines are skipped, any other line feeds `parse_property_line`. Returns
the accumulated map and the final cursor. `none` is fuel exhaustion. -/
def propBlockLoop : Nat → List Str → Nat → List (Str × Str) → Option (List (Str × Str) × Nat)
  | 0, _, _, _ => none
  | fuel + 1, lines, i, props =>
      if i < lines.length then
        let pl := trimS (lines.getD i [])
        if pl = tagCloseBrace then some (props, i + 1)
        else if pl.isEmpty || isPref tagComment pl then propBlockLoop fuel lines (i + 1) props
        else
          match parse_property_line pl with
          | some nt => propBlockLoop fuel lines (i + 1) (insertA props nt.1 nt.2)
          | none => propBlockLoop fuel lines (i + 1) props
      else some (props, i)

/-- `NodeType::parse_from_lines` (the Rust `Option` wrapper around the result
is always `Some` and is omitted). -/
def nodeParse (lines : List Str) (i : Nat) : Option (Except Str (NodeT × Nat)) :=
  let line := trimS (lines.getD i [])
  let nodeKind := if isPref tagN line then ['N'] else ['V']
  match (stripPref tagN line).orElse (fun _ => stripPref tagV line) with
  | none => some (Except.error (('I' :: ("nvalid node definition").data)))
  | some namePart =>
      let name := trimS (trimEndMatches tagOpenBrace namePart)
      (propBlockLoop (lines.length + 1) lines (i + 1) []).map (fun pr =>
        Except.ok ({ name := name, node_type := nodeKind, properties := pr.1 }, pr.2))

/-- `VectorType::parse_from_lines`. -/
def vectorParse (lines : List Str) (i : Nat) : Option (Except Str (VectorT × Nat)) :=
  let line := trimS (lines.getD i [])
  let vectorKind := if isPref tagV line then ['V'] else ['N']
  match (stripPref tagV line).orElse (fun _ => stripPref tagN line) with
  | none => some (Except.error (('I' :: ("nvalid vector definition").data)))
  | some namePart =>
      let name := trimS (trimEndMatches tagOpenBrace namePart)
      (propBlockLoop (lines.length + 1) lines (i + 1) []).map (fun pr =>
        Except.ok ({ name := name, vector_type := vectorKind, properties := pr.1 }, pr.2))

/-- Body loop of `EdgeType::parse_from_lines`. State: `fromN`/`toN`/`props`
so far and the `in_properties_section` flag. The checks mirror the Rust
control flow: the whole-block `\x7d` break and the blank/comment skip come
first, then the match arms in order (`From:`, `To:`, the `Properties: \x7b`
opener, the `\x7d`-with-flag arm, the in-section property arm, catch-all). -/
def edgeLoop : Nat → List Str → Nat → Str → Str → List (Str × Str) → Bool →
    Option (Str × Str × List (Str × Str) × Nat)
  | 0, _, _, _, _, _, _ => none
  | fuel + 1, lines, i, fromN, toN, props, inProps =>
      if i < lines.length then
        let el := trimS (lines.getD i [])
        if el = tagCloseBrace then some (fromN, toN, props, i + 1)
        else if el.isEmpty || isPref tagComment el then
          edgeLoop fuel lines (i + 1) fromN toN props inProps
        else if isPref tagFrom el then
          edgeLoop fuel lines (i + 1)
            (trimEndMatches [','] (trimS ((stripPref tagFrom el).getD []))) toN props inProps
        else if isPref tagTo el then
          edgeLoop fuel lines (i + 1)
            fromN (trimEndMatches [','] (trimS ((stripPref tagTo el).getD []))) props inProps
        else if el = tagProps then edgeLoop fuel lines (i + 1) fromN toN props true
        else if inProps && el = tagCloseBrace then edgeLoop fuel lines (i + 1) fromN toN props false
        else if inProps then
          match parse_property_line el with
          | some nt => edgeLoop fuel lines (i + 1) fromN toN (insertA props nt.1 nt.2) inProps
          | none => edgeLoop fuel lines (i + 1) fromN toN props inProps
        else edgeLoop fuel lines (i + 1) fromN toN props inProps
      else some (fromN, toN, props, i)

/-- `edgeLoop` with the `"\x7d" if in_properties_section` match arm deleted:
used to state that this arm is unreachable. -/
def edgeLoopNoSubClose : Nat → List Str → Nat → Str → Str → List (Str × Str) → Bool →
    Option (Str × Str × List (Str × Str) × Nat)
  | 0, _, _, _, _, _, _ => none
  | fuel + 1, lines, i, fromN, toN, props, inProps =>
      if i < lines.length then
        let el := trimS (lines.getD i [])
        if el = tagCloseBrace then some (fromN, toN, props, i + 1)
        else if el.isEmpty || isPref tagComment el then
          edgeLoopNoSubClose fuel lines (i + 1) fromN toN props inProps
        else if isPref tagFrom el then
          edgeLoopNoSubClose fuel lines (i + 1)
            (trimEndMatches [','] (trimS ((stripPref tagFrom el).getD []))) toN props inProps
        else if isPref tagTo el then
          edgeLoopNoSubClose fuel lines (i + 1)
            fromN (trimEndMatches [','] (trimS ((stripPref tagTo el).getD []))) props inProps
        else if el = tagProps then edgeLoopNoSubClose fuel lines (i + 1) fromN toN props true
        else if inProps then
          match parse_property_line el with
          | some nt => edgeLoopNoSubClose fuel lines (i + 1) fromN toN (insertA props nt.1 nt.2) inProps
          | none => edgeLoopNoSubClose fuel lines (i + 1) fromN toN props inProps
        else edgeLoopNoSubClose fuel lines (i + 1) fromN toN props inProps
      else some (fromN, toN, props, i)

/-- `EdgeType::parse_from_lines`. -/
def edgeParse (lines : List Str) (i : Nat) : Option (Except Str (EdgeT × Nat)) :=
  let line := trimS (lines.getD i [])
  match stripPref tagE line with
  | none => some (Except.error (('I' :: ("nvalid edge definition").data)))
  | some namePart =>
      let name := trimS (trimEndMatches tagOpenBrace namePart)
      (edgeLoop (lines.length + 1) lines (i + 1) [] [] [] false).map (fun r =>
        Except.ok ({ name := name, from_node := r.1, to_node := r.2.1,
                     properties := r.2.2.1 }, r.2.2.2))

/-- Top-level dispatch loop of `SchemaInfo::from_content`. -/
def contentLoop : Nat → List Str → Nat → List NodeT → List EdgeT → List VectorT →
    Option (Except Str SchemaInfoT)
  | 0, _, _, _, _, _ => none
  | fuel + 1, lines, i, nodes, edges, vectors =>
      if i < lines.length then
        let line := trimS (lines.getD i [])
        if line.isEmpty || isPref tagComment line then
          contentLoop fuel lines (i + 1) nodes edges vectors
        else if isPref tagN line then
          match nodeParse lines i with
          | none => none
          | some (Except.error e) => some (Except.error e)
          | some (Except.ok nj) => contentLoop fuel lines nj.2 (nodes ++ [nj.1]) edges vectors
        else if isPref tagV line then
          match vectorParse lines i with
          | none => none
          | some (Except.error e) => some (Except.error e)
          | some (Except.ok vj) => contentLoop fuel lines vj.2 nodes edges (vectors ++ [vj.1])
        else if isPref tagE line then
          match edgeParse lines i with
          | none => none
          | some (Except.error e) => some (Except.error e)
          | some (Except.ok ej) => contentLoop fuel lines ej.2 nodes (edges ++ [ej.1]) vectors
        else contentLoop fuel lines (i + 1) nodes edges vectors
      else some (Except.ok { nodes := nodes, edges := edges, vectors := vectors })

/-- `SchemaInfo::from_content`, with the fuel of the embedding exposed:
`none` would mean the fuel `lines.length + 1` ran out (claim C8 proves it
cannot), `some (Except.error _)` would be the `anyhow` error path. -/
def fromContentOpt (content : Str) : Option (Except Str SchemaInfoT) :=
  let lines := linesR content
  contentLoop (lines.length + 1) lines 0 [] [] []

/-- `QueryParameter`. -/
structure QueryParamT where
  name : Str
  param_type : Str
  deriving DecidableEq

/-- `QueryDefinition`. -/
structure QueryDefT where
  name : Str
  parameters : List QueryParamT
  http_method : Str
  endpoint_path : Str
  deriving DecidableEq

/-- `map_helix_type_to_rust`: the query parser's own type-name table. -/
def map_helix_type_to_rust (helixType : Str) : Str :=
  if helixType = ('S' :: ("tring").data) then ('S' :: ("tring").data)
  else if helixType = ['I', '3', '2'] then ['i', '3', '2']
  else if helixType = ['I', '6', '4'] then ['i', '6', '4']
  else if helixType = ['F', '6', '4'] then ['f', '6', '4']
  else if helixType = ['I', 'D'] then ('S' :: ("tring").data)
  else if helixType = ['[', 'F', '6', '4', ']'] then ('V' :: ("ec<f64>").data)
  else helixType

/-- `QueryParameter::new`. -/
def QueryParamT.new (name paramType : Str) : QueryParamT :=
  { name := name, param_type := map_helix_type_to_rust paramType }

/-- Separator `", "` of the parameter list. -/
def tagCommaSpace : Str := [',', ' ']

/-- Separator `": "` inside one parameter. -/
def tagColonSpace : Str := [':', ' ']

/-- `QueryParameter::parse_multiple`. -/
def parse_multiple (paramsStr : Str) : List QueryParamT :=
  if (trimS paramsStr).isEmpty then []
  else
    (splitSub tagCommaSpace paramsStr).filterMap (fun param =>
      (splitOnceSub tagColonSpace (trimS param)).map (fun nt =>
        QueryParamT.new (trimS nt.1) (trimS nt.2)))

/-- Index-tracking core of `convert_camel_to_kebab`. -/
def kebabAux : Nat → Str → Str
  | _, [] => []
  | i, c :: cs => (if c.isUpper && 0 < i then ['-'] else []) ++ Char.toLower c :: kebabAux (i + 1) cs

/-- `convert_camel_to_kebab`. -/
def convert_camel_to_kebab (s : Str) : Str := kebabAux 0 s

/-- The `"_id"` suffix marking a path parameter. -/
def tagUnderId : Str := ['_', 'i', 'd']

/-- The `/api/query/` path root. -/
def tagApiQuery : Str := ('/' :: ("api/query/").data)

/-- Id-like parameter test of `generate_endpoint_path`. -/
def isIdParam (p : QueryParamT) : Bool := isSuff tagUnderId p.name || p.name = idKeyS

/-- `generate_endpoint_path`. -/
def generate_endpoint_path (queryName : Str) (parameters : List QueryParamT) : Str :=
  let basePath := convert_camel_to_kebab queryName
  let pathParams := (parameters.filter isIdParam).map (fun p => '\x7b' :: p.name ++ ['\x7d'])
  if pathParams.isEmpty then tagApiQuery ++ basePath
  else tagApiQuery ++ basePath ++ '/' :: joinSep ['/'] pathParams

/-- `determine_endpoint_info`: method by case-insensitive name prefix, path by
`generate_endpoint_path`. -/
def determine_endpoint_info (queryName : Str) (parameters : List QueryParamT) : Str × Str :=
  let low := toLowerS queryName
  let method :=
    if isPref (('c' :: ("reate").data)) low || isPref ['a', 'd', 'd'] low then
      ('P' :: ("OST").data)
    else if isPref (('u' :: ("pdate").data)) low then ['P', 'U', 'T']
    else if isPref (('d' :: ("elete").data)) low || isPref (('r' :: ("emove").data)) low then
      ('D' :: ("ELETE").data)
    else ['G', 'E', 'T']
  (method, generate_endpoint_path queryName parameters)

/-- Separator `" ("` between query name and parameter list. -/
def tagSpaceParen : Str := [' ', '(']

/-- Separator `") =>"` before the return type. -/
def tagParenArrow : Str := [')', ' ', '=', '>']

/-- The `"QUERY "` marker removed from the name. -/
def tagQUERY : Str := ('Q' :: ("UERY ").data)

/-- `QueryDefinition::from_line`. -/
def from_line (line : Str) : Option QueryDefT :=
  let parts := splitSub tagSpaceParen line
  if parts.length < 2 then none
  else
    let name := trimS (removeAll tagQUERY (parts.getD 0 []))
    let paramsSection := (splitSub tagParenArrow (parts.getD 1 [])).getD 0 []
    let parameters := parse_multiple paramsSection
    let mp := determine_endpoint_info name parameters
    some { name := name, parameters := parameters,
           http_method := mp.1, endpoint_path := mp.2 }

theorem pow2_1024_eq : pow2_1024 = 2 ^ 1024 := by norm_num [pow2_1024]

section AssocLemmas

variable {α : Type}

theorem lookupA_insertA_self (l : List (Str × α)) (k : Str) (v : α) :
    lookupA (insertA l k v) k = some v := by
  induction l with
  | nil => simp [insertA, lookupA]
  | cons hd tl ih =>
      obtain ⟨k', v'⟩ := hd
      by_cases h : k' = k
      · simp [insertA, lookupA, h]
      · simp [insertA, lookupA, h, ih]

theorem lookupA_insertA_ne (l : List (Str × α)) (k k' : Str) (v : α) (h : k' ≠ k) :
    lookupA (insertA l k' v) k = lookupA l k := by
  induction l with
  | nil => simp [insertA, lookupA, h]
  | cons hd tl ih =>
      obtain ⟨k₀, v₀⟩ := hd
      by_cases h₀ : k₀ = k'
      · subst h₀
        simp [insertA, lookupA, h]
      · simp [insertA, lookupA, h₀, ih]

theorem lookupA_foldl_insert_of_ne : ∀ (news start : List (Str × α)) (k : Str),
    (∀ p ∈ news, p.1 ≠ k) →
    lookupA (news.foldl (fun acc p => insertA acc p.1 p.2) start) k = lookupA start k
  | [], _, _, _ => rfl
  | hd :: tl, start, k, h => by
      have hhd : hd.1 ≠ k := h hd (List.mem_cons_self hd tl)
      have htl : ∀ p ∈ tl, p.1 ≠ k := fun p hp => h p (List.mem_cons_of_mem hd hp)
      rw [List.foldl_cons, lookupA_foldl_insert_of_ne tl _ k htl]
      exact lookupA_insertA_ne start k hd.1 hd.2 hhd

theorem lookupA_foldl_insert_of_mem : ∀ (news start : List (Str × α)) (k : Str) (v : α),
    (k, v) ∈ news → (news.map Prod.fst).Nodup →
    lookupA (news.foldl (fun acc p => insertA acc p.1 p.2) start) k = some v
  | [], _, _, _, hmem, _ => absurd hmem (List.not_mem_nil _)
  | hd :: tl, start, k, v, hmem, hnd => by
      rcases List.mem_cons.mp hmem with heq | htl
      · have hk : ∀ p ∈ tl, p.1 ≠ k := by
          intro p hp hpk
          have h1 : p.1 ∈ tl.map Prod.fst := List.mem_map_of_mem Prod.fst hp
          rw [hpk] at h1
          have h2 : hd.1 ∉ tl.map Prod.fst := (List.nodup_cons.mp hnd).1
          rw [← heq] at h2
          exact h2 h1
        rw [List.foldl_cons, lookupA_foldl_insert_of_ne tl _ k hk, ← heq]
        exact lookupA_insertA_self start k v
      · rw [List.foldl_cons]
        exact lookupA_foldl_insert_of_mem tl _ k v htl (List.nodup_cons.mp hnd).2

theorem lookupA_of_mem_nodup : ∀ (l : List (Str × α)) (k : Str) (v : α),
    (k, v) ∈ l → (l.map Prod.fst).Nodup → lookupA l k = some v
  | [], _, _, hmem, _ => absurd hmem (List.not_mem_nil _)
  | (k₀, v₀) :: tl, k, v, hmem, hnd => by
      rcases List.mem_cons.mp hmem with heq | htl
      · injection heq with hk hv
        subst hk
        subst hv
        simp [lookupA]
      · have hne : k₀ ≠ k := by
          intro hk
          have h1 : k ∈ tl.map Prod.fst := List.mem_map_of_mem Prod.fst htl
          rw [← hk] at h1
          exact (List.nodup_cons.mp hnd).1 h1
        simp [lookupA, hne, lookupA_of_mem_nodup tl k v htl (List.nodup_cons.mp hnd).2]

theorem hasKeyA_of_mem : ∀ (l : List (Str × α)) (p : Str × α), p ∈ l → hasKeyA l p.1 = true
  | [], _, hmem => absurd hmem (List.not_mem_nil _)
  | hd :: tl, p, hmem => by
      rcases List.mem_cons.mp hmem with heq | htl
      · simp [hasKeyA, lookupA, heq]
      · by_cases h : hd.1 = p.1
        · simp [hasKeyA, lookupA, h]
        · have := hasKeyA_of_mem tl p htl
          simp only [hasKeyA, lookupA, h, if_false] at this ⊢
          simpa [h] using this

end AssocLemmas

theorem coerceQueryValue_fallback (paramTypes : List (Str × Str)) (k v : Str)
    (h : lookupA paramTypes k = none ∨
      (∃ ty e, lookupA paramTypes k = some ty ∧ helixFromStr ty = Except.error e) ∨
      (∃ ty ht e, lookupA paramTypes k = some ty ∧ helixFromStr ty = Except.ok ht ∧
        strToJson v ht = Except.error e)) :
    coerceQueryValue paramTypes k v = Json.str v := by
  rcases h with h | ⟨ty, e, h1, h2⟩ | ⟨ty, ht, e, h1, h2, h3⟩
  · simp [coerceQueryValue, h]
  · simp [coerceQueryValue, h1, h2]
  · simp [coerceQueryValue, h1, h2, h3]

theorem mergeParamsList_query_lookup (queryParams : List (Str × Str)) (body : Option Json)
    (paramTypes : List (Str × Str)) (k v : Str)
    (hnd : (queryParams.map Prod.fst).Nodup) (hmem : (k, v) ∈ queryParams)
    (habs : hasKeyA (seedParams body) k = false) :
    lookupA (mergeParamsList queryParams body paramTypes) k =
      some (coerceQueryValue paramTypes k v) := by
  have hfilter : (k, v) ∈ queryParams.filter (fun p => !hasKeyA (seedParams body) p.1) :=
    List.mem_filter.mpr ⟨hmem, by simp [habs]⟩
  have hnews : (k, coerceQueryValue paramTypes k v) ∈
      (queryParams.filter (fun p => !hasKeyA (seedParams body) p.1)).map
        (fun p => (p.1, coerceQueryValue paramTypes p.1 p.2)) := by
    exact List.mem_map_of_mem _ hfilter
  have hndnews :
      (((queryParams.filter (fun p => !hasKeyA (seedParams body) p.1)).map
        (fun p => (p.1, coerceQueryValue paramTypes p.1 p.2))).map Prod.fst).Nodup := by
    rw [List.map_map]
    have hsub : ((queryParams.filter (fun p => !hasKeyA (seedParams body) p.1)).map
        (Prod.fst ∘ fun p => (p.1, coerceQueryValue paramTypes p.1 p.2))).Sublist
        (queryParams.map Prod.fst) := by
      have : (Prod.fst ∘ fun p : Str × Str => (p.1, coerceQueryValue paramTypes p.1 p.2)) =
          Prod.fst := by
        funext p
        rfl
      rw [this]
      exact (List.filter_sublist _).map Prod.fst
    exact hnd.sublist hsub
  exact lookupA_foldl_insert_of_mem _ _ k _ hnews hndnews

/-- Claim C2 (amended): in `QueryParams::merge_parameters`, a query-string key
absent from the body-seeded object always appears in the result, and on a
catalogue miss, a type-text parse failure, or a coercion failure it carries
its raw value as a plain JSON string; the merge is total and always yields an
object. In the `execute_query_handler` path, however, `convert_string_to_type`
replaces a failed `U32`/`U64`/`U128` coercion by the default number 0 instead
of the raw string. -/
theorem claim2_amended :
    (∀ paramTypes k v,
      (lookupA paramTypes k = none ∨
        (∃ ty e, lookupA paramTypes k = some ty ∧ helixFromStr ty = Except.error e) ∨
        (∃ ty ht e, lookupA paramTypes k = some ty ∧ helixFromStr ty = Except.ok ht ∧
          strToJson v ht = Except.error e)) →
      coerceQueryValue paramTypes k v = Json.str v) ∧
    (∀ queryParams body paramTypes k v,
      (queryParams.map (Prod.fst (α := Str) (β := Str))).Nodup → (k, v) ∈ queryParams →
      hasKeyA (seedParams body) k = false →
      lookupA (mergeParamsList queryParams body paramTypes) k =
        some (coerceQueryValue paramTypes k v)) ∧
    (∀ queryParams body paramTypes,
      merge_parameters queryParams body paramTypes =
        Json.obj (mergeParamsList queryParams body paramTypes)) ∧
    (∀ v, parseU32 v = none →
      convert_string_to_type v (['U', '3', '2']) = Json.num (Dec.ofInt 0)) :=
  ⟨coerceQueryValue_fallback,
   mergeParamsList_query_lookup,
   fun _ _ _ => rfl,
   by
     intro v h
     simp only [convert_string_to_type]
     rw [if_neg (by decide), if_neg (by decide), if_neg (by decide)]
     simp [h]⟩

/-- Witness for C2 (amended): a key missing from an empty catalogue is merged
as the raw JSON string. -/
theorem claim2_witness :
    lookupA (mergeParamsList [(("limit").data, ("abc").data)] none []) (("limit").data) =
        some (coerceQueryValue [] (("limit").data) (("abc").data)) ∧
      coerceQueryValue [] (("limit").data) (("abc").data) = Json.str (("abc").data) :=
  ⟨claim2_amended.2.1 [(("limit").data, ("abc").data)] none [] (("limit").data) (("abc").data)
      (by decide) (by decide) rfl,
   claim2_amended.1 [] (("limit").data) (("abc").data) (Or.inl rfl)⟩

/-- Claim C2 (counterexample): in the `execute_query_handler` merge, the
catalogued `U32` key `limit` with unparseable raw value `abc` is merged as the
default number 0, not as the raw string. -/
theorem claim2_counterexample :
    executeQueryMergeParams [(("limit").data, ("abc").data)] none
        [(("limit").data, ("U32").data)] =
      Json.obj [(("limit").data, Json.num (Dec.ofInt 0))] ∧
    Json.num (Dec.ofInt 0) ≠ Json.str (("abc").data) :=
  ⟨rfl, fun h => Json.noConfusion h⟩

/-- Claim C3: body fields survive `QueryParams::merge_parameters` unchanged,
and colliding query-string entries have no effect on the result. -/
theorem claim3_theorem :
    ∀ (queryParams : List (Str × Str)) (bodyKvs : List (Str × Json))
      (paramTypes : List (Str × Str)),
      (bodyKvs.map Prod.fst).Nodup →
      (∀ p ∈ bodyKvs,
        lookupA (mergeParamsList queryParams (some (Json.obj bodyKvs)) paramTypes) p.1 =
          some p.2) ∧
      merge_parameters queryParams (some (Json.obj bodyKvs)) paramTypes =
        merge_parameters (queryParams.filter (fun p => !hasKeyA bodyKvs p.1))
          (some (Json.obj bodyKvs)) paramTypes := by
  intro queryParams bodyKvs paramTypes hnd
  have hseed : seedParams (some (Json.obj bodyKvs)) = bodyKvs := rfl
  constructor
  · intro p hp
    have hstart : lookupA bodyKvs p.1 = some p.2 := by
      obtain ⟨k, v⟩ := p
      exact lookupA_of_mem_nodup bodyKvs k v hp hnd
    have hkeys : ∀ q ∈ (queryParams.filter
        (fun q => !hasKeyA (seedParams (some (Json.obj bodyKvs))) q.1)).map
        (fun q => (q.1, coerceQueryValue paramTypes q.1 q.2)), q.1 ≠ p.1 := by
      intro q hq hqp
      obtain ⟨q₀, hq₀, hq₀eq⟩ := List.mem_map.mp hq
      have hqfil := List.mem_filter.mp hq₀
      have : hasKeyA bodyKvs q₀.1 = false := by
        have := hqfil.2
        simpa [hseed] using this
      rw [← hq₀eq] at hqp
      rw [hqp] at this
      rw [hasKeyA_of_mem bodyKvs p hp] at this
      cases this
    unfold mergeParamsList
    rw [lookupA_foldl_insert_of_ne _ _ p.1 hkeys]
    exact hstart
  · unfold merge_parameters mergeParamsList
    rw [hseed]
    simp [List.filter_filter]

/-- Claim C7: for every scalar type text in
`String, I32, I64, U32, U64, U128, F64, ID`, rendering the parsed `HelixType`
back through `Display` is the identity. -/
theorem claim7_theorem :
    helixRoundTrip (('S' :: ("tring").data)) = some (('S' :: ("tring").data)) ∧
    helixRoundTrip (['I', '3', '2']) = some (['I', '3', '2']) ∧
    helixRoundTrip (['I', '6', '4']) = some (['I', '6', '4']) ∧
    helixRoundTrip (['U', '3', '2']) = some (['U', '3', '2']) ∧
    helixRoundTrip (['U', '6', '4']) = some (['U', '6', '4']) ∧
    helixRoundTrip (['U', '1', '2', '8']) = some (['U', '1', '2', '8']) ∧
    helixRoundTrip (['F', '6', '4']) = some (['F', '6', '4']) ∧
    helixRoundTrip (['I', 'D']) = some (['I', 'D']) :=
  ⟨rfl, rfl, rfl, rfl, rfl, rfl, rfl, rfl⟩

/-- Claim C5 (counterexample): the one-line schema text
`N::User \x7b name: String, age: I32 \x7d` does not yield a node named `User`
with two properties; the block opener only strips a trailing ` \x7b`, so the
whole line remainder becomes the name and the property map stays empty. -/
theorem claim5_counterexample :
    fromContentOpt (("N::User \x7b name: String, age: I32 \x7d").data) =
      some (Except.ok
        { nodes := [{ name := ("User \x7b name: String, age: I32 \x7d").data,
                      node_type := ['N'], properties := [] }],
          edges := [], vectors := [] }) ∧
    ("User \x7b name: String, age: I32 \x7d").data ≠ ("User").data :=
  ⟨rfl, by decide⟩

/-- Claim C5 (amended): with the block written across lines — opener
`N::User \x7b`, one property per line, closing `\x7d` — parsing yields exactly
one node named `User` of kind `N` whose property map is
`name ↦ String, age ↦ I32`. -/
theorem claim5_amended :
    fromContentOpt (("N::User \x7b\n    name: String,\n    age: I32\n\x7d").data) =
      some (Except.ok
        { nodes := [{ name := ("User").data, node_type := ['N'],
                      properties := [(("name").data, ('S' :: ("tring").data)),
                                     (("age").data, ['I', '3', '2'])] }],
          edges := [], vectors := [] }) :=
  rfl

/-- Claim C4 (counterexample): coercing `1.0, abc, 3.0` to `Array(F64)` does
not drop the unparseable element `abc`; the comma-split fallback requires
every piece to parse as `f64`, so the whole coercion fails. -/
theorem claim4_counterexample :
    strToJson (("1.0, abc, 3.0").data) (HelixType.array HelixType.f64) =
      Except.error (HelixTypeError.conversion (("1.0, abc, 3.0").data)
        (HelixType.array HelixType.f64) errFailedParseArray) ∧
    Except.error (HelixTypeError.conversion (("1.0, abc, 3.0").data)
        (HelixType.array HelixType.f64) errFailedParseArray) ≠
      Except.ok (Json.arr [Json.num (Dec.mk 1 0), Json.num (Dec.mk 3 0)]) :=
  ⟨rfl, fun h => Except.noConfusion h⟩

/-- Claim C4 (amended): `Array(F64)` coercion accepts a JSON-array literal or
a comma-separated list (JSON parse first); elements that parse as floats but
are non-finite are silently dropped, while an element that fails to parse at
all fails the whole coercion; both example strings coerce to the three-element
array `[1.0, 2.0, 3.0]`. -/
theorem claim4_amended :
    strToJson (("[1.0, 2.0, 3.0]").data) (HelixType.array HelixType.f64) =
      Except.ok (Json.arr [Json.num (Dec.mk 1 0), Json.num (Dec.mk 2 0), Json.num (Dec.mk 3 0)]) ∧
    strToJson (("1.0, 2.0, 3.0").data) (HelixType.array HelixType.f64) =
      Except.ok (Json.arr [Json.num (Dec.mk 1 0), Json.num (Dec.mk 2 0), Json.num (Dec.mk 3 0)]) ∧
    strToJson (("1.0, inf, 3.0").data) (HelixType.array HelixType.f64) =
      Except.ok (Json.arr [Json.num (Dec.mk 1 0), Json.num (Dec.mk 3 0)]) ∧
    (∀ s rs, jsonVecF64Parse s = none →
      (splitChar ',' s).mapM (fun p => rustParseF64 (trimS p)) = some rs →
      parse_f64_array s = Except.ok (Json.arr ((rs.filterMap numberFromF64).map Json.num))) :=
  ⟨rfl, rfl, rfl, by
    intro s rs h1 h2
    unfold parse_f64_array
    rw [h1, h2]⟩

/-- Witness for C4 (amended): the comma-fallback branch at a concrete input
whose pieces all parse. -/
theorem claim4_witness :
    parse_f64_array (("1.5, 2.5").data) =
      Except.ok (Json.arr (([RF64.finite (Dec.mk 15 (-1)), RF64.finite (Dec.mk 25 (-1))].filterMap
        numberFromF64).map Json.num)) :=
  claim4_amended.2.2.2 (("1.5, 2.5").data)
    [RF64.finite (Dec.mk 15 (-1)), RF64.finite (Dec.mk 25 (-1))] rfl rfl

/-- Witness for C3 at the body-priority example from the tests. -/
theorem claim3_witness :
    lookupA (mergeParamsList [(("name").data, ("from_query").data)]
        (some (Json.obj [(("name").data, Json.str (("from_body").data))])) [])
      (("name").data) = some (Json.str (("from_body").data)) :=
  (claim3_theorem [(("name").data, ("from_query").data)]
      [(("name").data, Json.str (("from_body").data))] [] (by decide)).1
    ((("name").data, Json.str (("from_body").data))) (List.mem_singleton_self _)

theorem joinSep_slash_flatten : ∀ (xs : List Str) (x : Str),
    '/' :: joinSep ['/'] (x :: xs) = ('/' :: x) ++ (xs.map (fun y => '/' :: y)).flatten
  | [], x => by simp [joinSep]
  | y :: ys, x => by
      have ih := joinSep_slash_flatten ys y
      simp only [joinSep, List.map_cons, List.flatten_cons]
      simp only [joinSep] at ih
      rw [List.cons_append, List.append_assoc] at *
      simp only [List.cons_append, List.nil_append] at ih ⊢
      rw [← ih]

theorem generate_endpoint_path_flatten (queryName : Str) (parameters : List QueryParamT) :
    generate_endpoint_path queryName parameters =
      tagApiQuery ++ convert_camel_to_kebab queryName ++
        ((parameters.filter isIdParam).map
          (fun p => '/' :: '\x7b' :: p.name ++ ['\x7d'])).flatten := by
  unfold generate_endpoint_path
  cases hps : parameters.filter isIdParam with
  | nil => simp
  | cons p ps =>
      simp only [List.map_cons, List.isEmpty_cons, List.flatten_cons]
      rw [if_neg (by simp)]
      have h := joinSep_slash_flatten (ps.map (fun q => '\x7b' :: q.name ++ ['\x7d']))
        ('\x7b' :: p.name ++ ['\x7d'])
      rw [List.append_assoc, List.append_assoc]
      congr 1
      congr 1
      rw [h, List.map_map]
      rfl

/-- Claim C6: `QUERY getUserById (user_id: ID) => User` parses to a GET query
at `/api/query/get-user-by-id/\x7buser_id\x7d`; in general the endpoint path
is `/api/query/` ++ kebab-case of the name, with one `/\x7bparam\x7d` segment
per parameter named `id` or ending in `_id`, in declaration order, and every
`QueryDefinition` produced by `from_line` carries such a path. -/
theorem claim6_theorem :
    from_line (("QUERY getUserById (user_id: ID) => User").data) =
      some { name := ("getUserById").data,
             parameters := [{ name := ("user_id").data,
                              param_type := ('S' :: ("tring").data) }],
             http_method := ['G', 'E', 'T'],
             endpoint_path := ("/api/query/get-user-by-id/\x7buser_id\x7d").data } ∧
    (∀ queryName parameters,
      generate_endpoint_path queryName parameters =
        tagApiQuery ++ convert_camel_to_kebab queryName ++
          ((parameters.filter isIdParam).map
            (fun p => '/' :: '\x7b' :: p.name ++ ['\x7d'])).flatten) ∧
    (∀ line q, from_line line = some q →
      q.endpoint_path = generate_endpoint_path q.name q.parameters) := by
  refine ⟨rfl, generate_endpoint_path_flatten, ?_⟩
  intro line q h
  unfold from_line at h
  by_cases hlen : (splitSub tagSpaceParen line).length < 2
  · rw [if_pos hlen] at h
    cases h
  · rw [if_neg hlen] at h
    injection h with h
    subst h
    rfl

/-- Witness for C6 at the example line. -/
theorem claim6_witness :
    (({ name := ("getUserById").data,
        parameters := [{ name := ("user_id").data,
                         param_type := ('S' :: ("tring").data) }],
        http_method := ['G', 'E', 'T'],
        endpoint_path := ("/api/query/get-user-by-id/\x7buser_id\x7d").data } :
      QueryDefT)).endpoint_path =
      generate_endpoint_path (("getUserById").data)
        [{ name := ("user_id").data, param_type := ('S' :: ("tring").data) }] :=
  claim6_theorem.2.2 (("QUERY getUserById (user_id: ID) => User").data) _ rfl

theorem edgeLoop_eq_noSubClose :
    ∀ (fuel : Nat) (lines : List Str) (i : Nat) (fromN toN : Str)
      (props : List (Str × Str)) (inProps : Bool),
      edgeLoop fuel lines i fromN toN props inProps =
        edgeLoopNoSubClose fuel lines i fromN toN props inProps := by
  intro fuel
  induction fuel with
  | zero => intros; rfl
  | succ n ih =>
      intro lines i fromN toN props inProps
      simp only [edgeLoop, edgeLoopNoSubClose, ih]
      by_cases h1 : i < lines.length
      · simp only [if_pos h1]
        by_cases h2 : trimS (lines.getD i []) = tagCloseBrace
        · simp only [if_pos h2]
        · have hdead : (inProps && decide (trimS (lines.getD i []) = tagCloseBrace)) =
              false := by
            cases inProps
            · rfl
            · simpa [List.getD] using h2
          simp only [if_neg h2, hdead, Bool.false_eq_true, if_false]
      · simp only [if_neg h1]

theorem edgeLoop_step_close (fuel : Nat) (lines : List Str) (i : Nat) (fromN toN : Str)
    (props : List (Str × Str)) (inProps : Bool) (hi : i < lines.length)
    (hline : trimS (lines.getD i []) = tagCloseBrace) :
    edgeLoop (fuel + 1) lines i fromN toN props inProps =
      some (fromN, toN, props, i + 1) := by
  simp only [edgeLoop, if_pos hi, hline, eq_self_iff_true, if_true]

theorem edgeLoop_step_propsOpen (fuel : Nat) (lines : List Str) (i : Nat) (fromN toN : Str)
    (props : List (Str × Str)) (inProps : Bool) (hi : i < lines.length)
    (hline : trimS (lines.getD i []) = tagProps) :
    edgeLoop (fuel + 1) lines i fromN toN props inProps =
      edgeLoop fuel lines (i + 1) fromN toN props true := by
  have h1 : ¬(tagProps = tagCloseBrace) := by decide
  have h2 : (tagProps.isEmpty || isPref tagComment tagProps) = false := by decide
  have h3 : isPref tagFrom tagProps = false := by decide
  have h4 : isPref tagTo tagProps = false := by decide
  simp only [edgeLoop, if_pos hi, hline, if_neg h1, h2, h3, h4, Bool.false_eq_true,
    if_false, eq_self_iff_true, if_true]

/-- Claim C10 (amended): a `\x7d` line always ends the whole edge block — in
particular the match arm that would only end the `Properties:` sub-block is
unreachable (deleting it never changes the parse), so lines after the
sub-block's closing brace are never examined and `from_node`/`to_node` keep
whatever value they had there. A `From:`/`To:` line inside the sub-block
interior is still recorded, because those arms match before the
in-properties arm. -/
theorem claim10_amended :
    (∀ (fuel : Nat) (lines : List Str) (i : Nat) (fromN toN : Str)
      (props : List (Str × Str)) (inProps : Bool),
      edgeLoop fuel lines i fromN toN props inProps =
        edgeLoopNoSubClose fuel lines i fromN toN props inProps) ∧
    (∀ rest : List Str,
      edgeParse ((("E::Follows \x7b").data) :: (("Properties: \x7b").data) ::
          (("\x7d").data) :: rest) 0 =
        some (Except.ok ({ name := ("Follows").data, from_node := [], to_node := [],
                           properties := [] }, 3))) := by
  refine ⟨edgeLoop_eq_noSubClose, ?_⟩
  intro rest
  have hlen : ((("E::Follows \x7b").data) :: (("Properties: \x7b").data) ::
      (("\x7d").data) :: rest).length = rest.length + 3 := by
    simp
  have h1 : edgeLoop (rest.length + 3 + 1) ((("E::Follows \x7b").data) ::
      (("Properties: \x7b").data) :: (("\x7d").data) :: rest) 1 [] [] [] false =
      edgeLoop (rest.length + 3) ((("E::Follows \x7b").data) ::
        (("Properties: \x7b").data) :: (("\x7d").data) :: rest) 2 [] [] [] true :=
    edgeLoop_step_propsOpen _ _ _ _ _ _ _
      (by simp only [List.length_cons]; omega) rfl
  have h2 : edgeLoop (rest.length + 2 + 1) ((("E::Follows \x7b").data) ::
      (("Properties: \x7b").data) :: (("\x7d").data) :: rest) 2 [] [] [] true =
      some ([], [], [], 3) :=
    edgeLoop_step_close _ _ _ _ _ _ _
      (by simp only [List.length_cons]; omega) rfl
  simp only [edgeParse]
  rw [hlen, h1, show rest.length + 3 = rest.length + 2 + 1 from by omega, h2]
  rfl

/-- Claim C10 (counterexample): in the edge block
`E::X \x7b / Properties: \x7b / From: User / \x7d / From: Bob / \x7d`
the `From: User` line was not set before the sub-block, yet `from_node`
ends as `User`, not the empty string the claim predicts: the `From:` arm
matches even inside the `Properties:` interior, and the sub-block's `\x7d`
then ends the whole block (so `From: Bob` is never seen). -/
theorem claim10_counterexample :
    edgeParse [("E::X \x7b").data, ("Properties: \x7b").data, ("From: User").data,
        ("\x7d").data, ("From: Bob").data, ("\x7d").data] 0 =
      some (Except.ok ({ name := ['X'], from_node := ("User").data, to_node := [],
                         properties := [] }, 4)) ∧
    ("User").data ≠ ([] : Str) :=
  ⟨rfl, by decide⟩

theorem sortObjVals_eq_map : ∀ l : List (Str × Json),
    sortObjVals l = l.map (fun p => (p.1, sort_json_object p.2))
  | [] => rfl
  | (k, v) :: tl => by
      simp only [sortObjVals, List.map_cons]
      rw [sortObjVals_eq_map tl]

theorem sortArrVals_eq_map : ∀ xs : List Json, sortArrVals xs = xs.map sort_json_object
  | [] => rfl
  | x :: xs => by
      simp only [sortArrVals, List.map_cons]
      rw [sortArrVals_eq_map xs]

theorem sortJsonObj_filter (l : List (Str × Json)) :
    sort_json_object (Json.obj l) =
      Json.obj
        (List.insertionSort keyLE
          ((l.map (fun p => (p.1, sort_json_object p.2))).filter digitKeyB) ++
         (l.map (fun p => (p.1, sort_json_object p.2))).filter
           (fun p => idKeyB p && !digitKeyB p) ++
         (l.map (fun p => (p.1, sort_json_object p.2))).filter
           (fun p => !idKeyB p && !digitKeyB p)) := by
  simp only [sort_json_object, sortObjVals_eq_map, List.partition_eq_filter_filter,
    List.filter_filter, Function.comp]

/-- Claim C1 (amended): the canonicalizer reorders an object's members into
the all-ASCII-digit-key group, then the `"id"` key, then the remaining
members in input order; the digit group is a permutation of its members
sorted ascending by `sortKeyU64` — the key parsed as a `u64` with parse
failures (in particular values beyond `u64::MAX`) replaced by 0 — not by the
key's exact numeric value; values are canonicalized recursively, and arrays
elementwise with order preserved. -/
theorem claim1_amended :
    (∀ l : List (Str × Json),
      sort_json_object (Json.obj l) =
        Json.obj
          (List.insertionSort keyLE
            ((l.map (fun p => (p.1, sort_json_object p.2))).filter digitKeyB) ++
           (l.map (fun p => (p.1, sort_json_object p.2))).filter
             (fun p => idKeyB p && !digitKeyB p) ++
           (l.map (fun p => (p.1, sort_json_object p.2))).filter
             (fun p => !idKeyB p && !digitKeyB p)) ∧
      (List.insertionSort keyLE
        ((l.map (fun p => (p.1, sort_json_object p.2))).filter digitKeyB)).Pairwise keyLE ∧
      (List.insertionSort keyLE
        ((l.map (fun p => (p.1, sort_json_object p.2))).filter digitKeyB)).Perm
        ((l.map (fun p => (p.1, sort_json_object p.2))).filter digitKeyB)) ∧
    (∀ xs : List Json, sort_json_object (Json.arr xs) = Json.arr (xs.map sort_json_object)) ∧
    (∀ b, sort_json_object (Json.bool b) = Json.bool b) ∧
    (∀ d, sort_json_object (Json.num d) = Json.num d) ∧
    (∀ s, sort_json_object (Json.str s) = Json.str s) ∧
    sort_json_object Json.null = Json.null := by
  refine ⟨fun l => ⟨sortJsonObj_filter l, ?_, List.perm_insertionSort keyLE _⟩,
    fun xs => ?_, fun _ => rfl, fun _ => rfl, fun _ => rfl, rfl⟩
  · exact List.sorted_insertionSort keyLE _
  · simp only [sort_json_object, sortArrVals_eq_map]

/-- Claim C1 (counterexample): both keys are all-ASCII-digit keys and the
numeric value of `2` is smaller than that of `18446744073709551616` (2^64),
yet the canonicalizer puts `18446744073709551616` first: its `u64` parse
overflows and falls back to the sort key 0. -/
theorem claim1_counterexample :
    sort_json_object (Json.obj [(['2'], Json.null),
        ((("18446744073709551616").data), Json.null)]) =
      Json.obj [((("18446744073709551616").data), Json.null), (['2'], Json.null)] ∧
    digitsToNat ['2'] < digitsToNat (("18446744073709551616").data) ∧
    ['2'].all Char.isDigit = true ∧
    (("18446744073709551616").data).all Char.isDigit = true :=
  ⟨rfl, by decide, rfl, rfl⟩

theorem bool_and_true_left {a b : Bool} (h : (a && b) = true) : a = true := by
  cases a
  · simp at h
  · rfl

theorem bool_and_true_right {a b : Bool} (h : (a && b) = true) : b = true := by
  cases b
  · simp at h
  · rfl

theorem bool_not_true {a : Bool} (h : (!a) = true) : a = false := by
  cases a
  · rfl
  · simp at h

theorem map_sortVal_eq_self : ∀ {l : List (Str × Json)},
    (∀ p ∈ l, sort_json_object p.2 = p.2) →
    l.map (fun p => (p.1, sort_json_object p.2)) = l
  | [], _ => rfl
  | (k, v) :: tl, h => by
      have hv : sort_json_object v = v := h (k, v) (List.mem_cons_self _ _)
      simp only [List.map_cons, hv,
        map_sortVal_eq_self (fun p hp => h p (List.mem_cons_of_mem _ hp))]

theorem map_sortVal_fix : ∀ {l : List (Str × Json)},
    l.map (fun p => (p.1, sort_json_object p.2)) = l →
    ∀ p ∈ l, sort_json_object p.2 = p.2
  | [], _, p, hp => absurd hp (List.not_mem_nil p)
  | (k, v) :: tl, h, p, hp => by
      simp only [List.map_cons, List.cons.injEq] at h
      obtain ⟨h1, h2⟩ := h
      rcases List.mem_cons.mp hp with heq | htl
      · subst heq
        exact congrArg Prod.snd h1
      · exact map_sortVal_fix h2 p htl

theorem sortObj_second_pass (kvs : List (Str × Json))
    (h : sortObjVals (sortObjVals kvs) = sortObjVals kvs) :
    sort_json_object (sort_json_object (Json.obj kvs)) = sort_json_object (Json.obj kvs) := by
  have hfixM : ∀ p ∈ kvs.map (fun p => (p.1, sort_json_object p.2)),
      sort_json_object p.2 = p.2 := by
    apply map_sortVal_fix
    rw [sortObjVals_eq_map, sortObjVals_eq_map] at h
    exact h
  rw [sortJsonObj_filter kvs, sortJsonObj_filter]
  set M := kvs.map (fun p => (p.1, sort_json_object p.2)) with hMdef
  set A := List.insertionSort keyLE (M.filter digitKeyB) with hAdef
  set B := M.filter (fun p => idKeyB p && !digitKeyB p) with hBdef
  set C := M.filter (fun p => !idKeyB p && !digitKeyB p) with hCdef
  have hAdig : ∀ p ∈ A, digitKeyB p = true := by
    intro p hp
    rw [hAdef] at hp
    exact (List.mem_filter.mp ((List.mem_insertionSort keyLE).mp hp)).2
  have hBall : ∀ p ∈ B, (idKeyB p && !digitKeyB p) = true := by
    intro p hp
    rw [hBdef] at hp
    exact (List.mem_filter.mp hp).2
  have hCall : ∀ p ∈ C, (!idKeyB p && !digitKeyB p) = true := by
    intro p hp
    rw [hCdef] at hp
    exact (List.mem_filter.mp hp).2
  have hmemM : ∀ p ∈ A ++ B ++ C, p ∈ M := by
    intro p hp
    rcases List.mem_append.mp hp with hab | hc
    · rcases List.mem_append.mp hab with ha | hb
      · rw [hAdef] at ha
        exact (List.mem_filter.mp ((List.mem_insertionSort keyLE).mp ha)).1
      · rw [hBdef] at hb
        exact (List.mem_filter.mp hb).1
    · rw [hCdef] at hc
      exact (List.mem_filter.mp hc).1
  rw [map_sortVal_eq_self (fun p hp => hfixM p (hmemM p hp))]
  have h1 : List.filter digitKeyB A = A := List.filter_eq_self.mpr hAdig
  have h2 : List.filter digitKeyB B = [] := List.filter_eq_nil_iff.mpr (fun p hp => by
    simp [bool_not_true (bool_and_true_right (hBall p hp))])
  have h3 : List.filter digitKeyB C = [] := List.filter_eq_nil_iff.mpr (fun p hp => by
    simp [bool_not_true (bool_and_true_right (hCall p hp))])
  have h4 : List.filter (fun p => idKeyB p && !digitKeyB p) A = [] :=
    List.filter_eq_nil_iff.mpr (fun p hp => by simp [hAdig p hp])
  have h5 : List.filter (fun p => idKeyB p && !digitKeyB p) B = B :=
    List.filter_eq_self.mpr hBall
  have h6 : List.filter (fun p => idKeyB p && !digitKeyB p) C = [] :=
    List.filter_eq_nil_iff.mpr (fun p hp => by
      simp [bool_not_true (bool_and_true_left (hCall p hp))])
  have h7 : List.filter (fun p => !idKeyB p && !digitKeyB p) A = [] :=
    List.filter_eq_nil_iff.mpr (fun p hp => by simp [hAdig p hp])
  have h8 : List.filter (fun p => !idKeyB p && !digitKeyB p) B = [] :=
    List.filter_eq_nil_iff.mpr (fun p hp => by simp [bool_and_true_left (hBall p hp)])
  have h9 : List.filter (fun p => !idKeyB p && !digitKeyB p) C = C :=
    List.filter_eq_self.mpr hCall
  rw [List.filter_append, List.filter_append, List.filter_append, List.filter_append,
    List.filter_append, List.filter_append, h1, h2, h3, h4, h5, h6, h7, h8, h9]
  simp only [List.append_nil, List.nil_append]
  have hsorted : List.Sorted keyLE A := by
    rw [hAdef]
    exact List.sorted_insertionSort keyLE _
  rw [List.Sorted.insertionSort_eq hsorted]

mutual
theorem sortIdemAux : (v : Json) → sort_json_object (sort_json_object v) = sort_json_object v
  | Json.null => rfl
  | Json.bool _ => rfl
  | Json.num _ => rfl
  | Json.str _ => rfl
  | Json.arr xs => by
      have h := sortArrIdemAux xs
      show sort_json_object (Json.arr (sortArrVals xs)) = Json.arr (sortArrVals xs)
      simp only [sort_json_object]
      rw [h]
  | Json.obj kvs => sortObj_second_pass kvs (sortObjIdemAux kvs)
theorem sortArrIdemAux : (xs : List Json) → sortArrVals (sortArrVals xs) = sortArrVals xs
  | [] => rfl
  | x :: xs => by
      simp only [sortArrVals]
      rw [sortIdemAux x, sortArrIdemAux xs]
theorem sortObjIdemAux : (kvs : List (Str × Json)) →
    sortObjVals (sortObjVals kvs) = sortObjVals kvs
  | [] => rfl
  | (k, v) :: tl => by
      simp only [sortObjVals]
      rw [sortIdemAux v, sortObjIdemAux tl]
end

/-- Claim C9: the canonicalizer `sort_json_object` is idempotent. -/
theorem claim9_theorem :
    ∀ v : Json, sort_json_object (sort_json_object v) = sort_json_object v :=
  sortIdemAux

theorem propBlockLoop_total :
    ∀ (fuel : Nat) (lines : List Str) (i : Nat) (acc : List (Str × Str)),
      lines.length - i < fuel → i ≤ lines.length →
      ∃ ps j, propBlockLoop fuel lines i acc = some (ps, j) ∧ i ≤ j ∧ j ≤ lines.length := by
  intro fuel
  induction fuel with
  | zero => intro lines i acc hf hi; omega
  | succ n ih =>
      intro lines i acc hf hi
      by_cases h1 : i < lines.length
      · simp only [propBlockLoop, if_pos h1]
        by_cases h2 : trimS (lines.getD i []) = tagCloseBrace
        · rw [if_pos h2]
          exact ⟨acc, i + 1, rfl, by omega, by omega⟩
        · rw [if_neg h2]
          by_cases h3 : ((trimS (lines.getD i [])).isEmpty ||
              isPref tagComment (trimS (lines.getD i []))) = true
          · rw [if_pos h3]
            obtain ⟨ps, j, heq, hij, hjl⟩ := ih lines (i + 1) acc (by omega) (by omega)
            exact ⟨ps, j, heq, by omega, hjl⟩
          · rw [if_neg h3]
            cases hpl : parse_property_line (trimS (lines.getD i [])) with
            | some nt =>
                obtain ⟨ps, j, heq, hij, hjl⟩ :=
                  ih lines (i + 1) (insertA acc nt.1 nt.2) (by omega) (by omega)
                exact ⟨ps, j, heq, by omega, hjl⟩
            | none =>
                obtain ⟨ps, j, heq, hij, hjl⟩ := ih lines (i + 1) acc (by omega) (by omega)
                exact ⟨ps, j, heq, by omega, hjl⟩
      · simp only [propBlockLoop, if_neg h1]
        exact ⟨acc, i, rfl, le_refl i, by omega⟩

theorem nodeParse_ok (lines : List Str) (i : Nat) (hi : i < lines.length)
    (hN : isPref tagN (trimS (lines.getD i [])) = true) :
    ∃ nd j, nodeParse lines i = some (Except.ok (nd, j)) ∧ i < j ∧ j ≤ lines.length := by
  obtain ⟨ps, j, heq, hij, hjl⟩ :=
    propBlockLoop_total (lines.length + 1) lines (i + 1) [] (by omega) (by omega)
  refine ⟨NodeT.mk (trimS (trimEndMatches tagOpenBrace
      ((trimS (lines.getD i [])).drop tagN.length)))
      (if isPref tagN (trimS (lines.getD i [])) then ['N'] else ['V']) ps, j, ?_,
      by omega, hjl⟩
  unfold nodeParse stripPref
  simp only [hN, eq_self_iff_true, if_true, Option.orElse]
  rw [heq]
  rfl

theorem vectorParse_ok (lines : List Str) (i : Nat) (hi : i < lines.length)
    (hV : isPref tagV (trimS (lines.getD i [])) = true) :
    ∃ vd j, vectorParse lines i = some (Except.ok (vd, j)) ∧ i < j ∧ j ≤ lines.length := by
  obtain ⟨ps, j, heq, hij, hjl⟩ :=
    propBlockLoop_total (lines.length + 1) lines (i + 1) [] (by omega) (by omega)
  refine ⟨VectorT.mk (trimS (trimEndMatches tagOpenBrace
      ((trimS (lines.getD i [])).drop tagV.length)))
      (if isPref tagV (trimS (lines.getD i [])) then ['V'] else ['N']) ps, j, ?_,
      by omega, hjl⟩
  unfold vectorParse stripPref
  simp only [hV, eq_self_iff_true, if_true, Option.orElse]
  rw [heq]
  rfl

theorem edgeLoop_total :
    ∀ (fuel : Nat) (lines : List Str) (i : Nat) (fromN toN : Str)
      (props : List (Str × Str)) (inProps : Bool),
      lines.length - i < fuel → i ≤ lines.length →
      ∃ f t ps j, edgeLoop fuel lines i fromN toN props inProps = some (f, t, ps, j) ∧
        i ≤ j ∧ j ≤ lines.length := by
  intro fuel
  induction fuel with
  | zero => intro lines i fromN toN props inProps hf hi; omega
  | succ n ih =>
      intro lines i fromN toN props inProps hf hi
      by_cases h1 : i < lines.length
      · simp only [edgeLoop, if_pos h1]
        by_cases h2 : trimS (lines.getD i []) = tagCloseBrace
        · rw [if_pos h2]
          exact ⟨fromN, toN, props, i + 1, rfl, by omega, by omega⟩
        · rw [if_neg h2]
          by_cases h3 : ((trimS (lines.getD i [])).isEmpty ||
              isPref tagComment (trimS (lines.getD i []))) = true
          · rw [if_pos h3]
            obtain ⟨f, t, ps2, j, heq, hij, hjl⟩ :=
              ih lines (i + 1) fromN toN props inProps (by omega) (by omega)
            exact ⟨f, t, ps2, j, heq, by omega, hjl⟩
          · rw [if_neg h3]
            by_cases h4 : isPref tagFrom (trimS (lines.getD i [])) = true
            · rw [if_pos h4]
              obtain ⟨f, t, ps2, j, heq, hij, hjl⟩ := ih lines (i + 1)
                (trimEndMatches [','] (trimS ((stripPref tagFrom
                  (trimS (lines.getD i []))).getD []))) toN props inProps (by omega) (by omega)
              exact ⟨f, t, ps2, j, heq, by omega, hjl⟩
            · rw [if_neg h4]
              by_cases h5 : isPref tagTo (trimS (lines.getD i [])) = true
              · rw [if_pos h5]
                obtain ⟨f, t, ps2, j, heq, hij, hjl⟩ := ih lines (i + 1) fromN
                  (trimEndMatches [','] (trimS ((stripPref tagTo
                    (trimS (lines.getD i []))).getD []))) props inProps (by omega) (by omega)
                exact ⟨f, t, ps2, j, heq, by omega, hjl⟩
              · rw [if_neg h5]
                by_cases h6 : trimS (lines.getD i []) = tagProps
                · rw [if_pos h6]
                  obtain ⟨f, t, ps2, j, heq, hij, hjl⟩ :=
                    ih lines (i + 1) fromN toN props true (by omega) (by omega)
                  exact ⟨f, t, ps2, j, heq, by omega, hjl⟩
                · rw [if_neg h6]
                  by_cases h7 : (inProps && decide (trimS (lines.getD i []) =
                      tagCloseBrace)) = true
                  · rw [if_pos h7]
                    obtain ⟨f, t, ps2, j, heq, hij, hjl⟩ :=
                      ih lines (i + 1) fromN toN props false (by omega) (by omega)
                    exact ⟨f, t, ps2, j, heq, by omega, hjl⟩
                  · rw [if_neg h7]
                    by_cases h8 : inProps = true
                    · rw [if_pos h8]
                      cases hpl : parse_property_line (trimS (lines.getD i [])) with
                      | some nt =>
                          obtain ⟨f, t, ps2, j, heq, hij, hjl⟩ := ih lines (i + 1) fromN toN
                            (insertA props nt.1 nt.2) inProps (by omega) (by omega)
                          exact ⟨f, t, ps2, j, heq, by omega, hjl⟩
                      | none =>
                          obtain ⟨f, t, ps2, j, heq, hij, hjl⟩ :=
                            ih lines (i + 1) fromN toN props inProps (by omega) (by omega)
                          exact ⟨f, t, ps2, j, heq, by omega, hjl⟩
                    · rw [if_neg h8]
                      obtain ⟨f, t, ps2, j, heq, hij, hjl⟩ :=
                        ih lines (i + 1) fromN toN props inProps (by omega) (by omega)
                      exact ⟨f, t, ps2, j, heq, by omega, hjl⟩
      · simp only [edgeLoop, if_neg h1]
        exact ⟨fromN, toN, props, i, rfl, le_refl i, by omega⟩

theorem edgeParse_ok (lines : List Str) (i : Nat) (hi : i < lines.length)
    (hE : isPref tagE (trimS (lines.getD i [])) = true) :
    ∃ ed j, edgeParse lines i = some (Except.ok (ed, j)) ∧ i < j ∧ j ≤ lines.length := by
  obtain ⟨f, t, ps, j, heq, hij, hjl⟩ :=
    edgeLoop_total (lines.length + 1) lines (i + 1) [] [] [] false (by omega) (by omega)
  refine ⟨EdgeT.mk (trimS (trimEndMatches tagOpenBrace
      ((trimS (lines.getD i [])).drop tagE.length))) f t ps, j, ?_, by omega, hjl⟩
  unfold edgeParse stripPref
  simp only [hE, eq_self_iff_true, if_true]
  rw [heq]
  rfl

theorem contentLoop_total :
    ∀ (fuel : Nat) (lines : List Str) (i : Nat) (ns : List NodeT) (es : List EdgeT)
      (vs : List VectorT),
      lines.length - i < fuel →
      ∃ info, contentLoop fuel lines i ns es vs = some (Except.ok info) := by
  intro fuel
  induction fuel with
  | zero => intro lines i ns es vs hf; omega
  | succ n ih =>
      intro lines i ns es vs hf
      by_cases h1 : i < lines.length
      · simp only [contentLoop, if_pos h1]
        by_cases h2 : ((trimS (lines.getD i [])).isEmpty ||
            isPref tagComment (trimS (lines.getD i []))) = true
        · rw [if_pos h2]
          exact ih lines (i + 1) ns es vs (by omega)
        · rw [if_neg h2]
          by_cases h3 : isPref tagN (trimS (lines.getD i [])) = true
          · rw [if_pos h3]
            obtain ⟨nd, j, heq, hij, hjl⟩ := nodeParse_ok lines i h1 h3
            rw [heq]
            exact ih lines j (ns ++ [nd]) es vs (by omega)
          · rw [if_neg h3]
            by_cases h4 : isPref tagV (trimS (lines.getD i [])) = true
            · rw [if_pos h4]
              obtain ⟨vd, j, heq, hij, hjl⟩ := vectorParse_ok lines i h1 h4
              rw [heq]
              exact ih lines j ns es (vs ++ [vd]) (by omega)
            · rw [if_neg h4]
              by_cases h5 : isPref tagE (trimS (lines.getD i [])) = true
              · rw [if_pos h5]
                obtain ⟨ed, j, heq, hij, hjl⟩ := edgeParse_ok lines i h1 h5
                rw [heq]
                exact ih lines j ns (es ++ [ed]) vs (by omega)
              · rw [if_neg h5]
                exact ih lines (i + 1) ns es vs (by omega)
      · simp only [contentLoop, if_neg h1]
        exact ⟨_, rfl⟩

theorem propBlockLoop_unterminated :
    ∀ (fuel : Nat) (lines : List Str) (i : Nat) (acc : List (Str × Str)),
      lines.length - i < fuel → i ≤ lines.length →
      (∀ j, i ≤ j → j < lines.length → trimS (lines.getD j []) ≠ tagCloseBrace) →
      ∃ ps, propBlockLoop fuel lines i acc = some (ps, lines.length) := by
  intro fuel
  induction fuel with
  | zero => intro lines i acc hf hi hnc; omega
  | succ n ih =>
      intro lines i acc hf hi hnc
      by_cases h1 : i < lines.length
      · simp only [propBlockLoop, if_pos h1]
        have h2 : ¬trimS (lines.getD i []) = tagCloseBrace := hnc i (le_refl i) h1
        rw [if_neg h2]
        have hnc' : ∀ j, i + 1 ≤ j → j < lines.length →
            trimS (lines.getD j []) ≠ tagCloseBrace := fun j hj hjl => hnc j (by omega) hjl
        by_cases h3 : ((trimS (lines.getD i [])).isEmpty ||
            isPref tagComment (trimS (lines.getD i []))) = true
        · rw [if_pos h3]
          exact ih lines (i + 1) acc (by omega) (by omega) hnc'
        · rw [if_neg h3]
          cases hpl : parse_property_line (trimS (lines.getD i [])) with
          | some nt => exact ih lines (i + 1) (insertA acc nt.1 nt.2) (by omega) (by omega) hnc'
          | none => exact ih lines (i + 1) acc (by omega) (by omega) hnc'
      · have : i = lines.length := by omega
        subst this
        simp only [propBlockLoop, if_neg h1]
        exact ⟨acc, rfl⟩

/-- Claim C8: `SchemaInfo::from_content` is total and never errors — for every
input the embedded parse, run with its `lines.length + 1` fuel, completes with
an `Ok` schema (the loops strictly advance the cursor, so the fuel suffices,
and the error constructors are unreachable from the dispatch); a property
block whose closing brace never appears simply stops accumulating at
end-of-input; and a block whose property line is malformed yields a node
with an empty property map rather than an error. -/
theorem claim8_theorem :
    (∀ content : Str, ∃ info, fromContentOpt content = some (Except.ok info)) ∧
    (∀ (lines : List Str) (i : Nat) (acc : List (Str × Str)),
      i ≤ lines.length →
      (∀ j, i ≤ j → j < lines.length → trimS (lines.getD j []) ≠ tagCloseBrace) →
      ∃ ps, propBlockLoop (lines.length + 1) lines i acc = some (ps, lines.length)) ∧
    fromContentOpt (("N::X \x7b\n  garbage line\n\x7d").data) =
      some (Except.ok { nodes := [{ name := ['X'], node_type := ['N'], properties := [] }],
                        edges := [], vectors := [] }) :=
  ⟨fun content => contentLoop_total _ _ 0 [] [] [] (by omega),
   fun lines i acc hi hnc => propBlockLoop_unterminated _ lines i acc (by omega) hi hnc,
   rfl⟩

/-- Witness for C8: the unterminated-block clause at a one-line block body
with no closing brace. -/
theorem claim8_witness :
    ∃ ps, propBlockLoop (1 + 1) [("a: B").data] 0 [] = some (ps, 1) :=
  claim8_theorem.2.1 [("a: B").data] 0 [] (by omega)
    (fun j h0 hj => by
      have hj0 : j = 0 := by simpa using hj
      subst hj0
      decide)

end HxD
